import Mathlib

/-! Verification of the QuantumAttention ThunderKittens attention core
    (src/quantum_attn/tk/attention.py). The file embeds, in order:
    the Python loader `load_tk_attention_module`, the C++ host launcher
    `attention_forward`, the compile-time tile geometry
    `fwd_attend_ker_tile_dims`, and the CUDA kernel `fwd_attend_ker`,
    the latter as an exact rational-arithmetic model of the per-query-row
    streaming-softmax computation performed by one consumer warp.
    Floating-point rounding is not modelled: all kernel arithmetic is
    carried out in `ℚ`, with the base-2 exponential left abstract as a
    function `e2 : ℚ → ℚ` that theorems constrain to be an exponential
    (`e2 (a+b) = e2 a * e2 b`, `0 < e2 x`). -/

namespace QuantumAttn

/-- Torch scalar dtypes relevant to the dispatch in `load_tk_attention_module`
    and to the scale-tensor dtype checks in `attention_forward`. -/
inductive TorchDType where
  | float16
  | bfloat16
  | float32
  | float64
  | float8e4m3fn
  | int8
  | int32
  | int64
  | boolean
deriving DecidableEq, Repr

def dtypeName : TorchDType → String
  | .float16 => "float16"
  | .bfloat16 => "bfloat16"
  | .float32 => "float32"
  | .float64 => "float64"
  | .float8e4m3fn => "float8_e4m3fn"
  | .int8 => "int8"
  | .int32 => "int32"
  | .int64 => "int64"
  | .boolean => "bool"

/-- Outcome of `load_tk_attention_module`: a loaded module, a Python
    `ValueError` raised by the dtype dispatch, or a failure raised from
    inside `torch.utils.cpp_extension.load_inline`. -/
inductive LoadOutcome where
  | ok (moduleName : String)
  | valueError (msg : String)
  | compileError
deriving DecidableEq, Repr

def LoadOutcome.isValueError : LoadOutcome → Bool
  | .valueError _ => true
  | _ => false

/-- Observable result of one call to `load_tk_attention_module`:
    the final value of the TORCH_CUDA_ARCH_LIST environment variable,
    whether `load_inline` was ever invoked, and the call outcome. -/
structure LoadResult where
  envArch : Option String
  loadAttempted : Bool
  outcome : LoadOutcome
deriving DecidableEq, Repr

/-- Model of the Python function `load_tk_attention_module(dtype, is_fp8)`
    (attention.py lines 651-708). `env0` is the value of the
    TORCH_CUDA_ARCH_LIST environment variable on entry (`None` when unset)
    and `compileOk` abstracts whether the `load_inline` call succeeds.
    The source appends `-DTK_ATTN_DTYPE_FP16` for `torch.float16` and
    `-DTK_ATTN_DTYPE_BF16` for `torch.bfloat16`, and raises `ValueError`
    for every other dtype before touching the environment or compiling.
    On the compile path it sets the variable to "9.0a", runs `load_inline`
    inside `try`, and in `finally` pops the variable if it was unset
    before the call, else writes the old value back. -/
def load_tk_attention_module (dtype : TorchDType) (is_fp8 : Bool)
    (env0 : Option String) (compileOk : Bool) : LoadResult :=
  match dtype with
  | .float16 | .bfloat16 =>
    let old := env0
    let envFinal : Option String :=
      match old with
      | none => none
      | some oldVal => some oldVal
    let name := "quantum_attn_tk_attention_dtype_" ++ dtypeName dtype
      ++ "_is_fp8_" ++ (if is_fp8 then "True" else "False")
    ⟨envFinal, true, if compileOk then .ok name else .compileError⟩
  | d => ⟨env0, false, .valueError ("Unsupported dtype: " ++ dtypeName d)⟩

/-- Host-visible metadata of a torch tensor, as consulted by the
    TORCH_CHECK validations in `attention_forward`. -/
structure TensorMeta where
  sizes : List ℕ
  device : ℕ
  isCuda : Bool
  dtype : TorchDType
deriving DecidableEq, Repr

def TensorMeta.dim (t : TensorMeta) : ℕ := t.sizes.length

def TensorMeta.size (t : TensorMeta) (i : ℕ) : ℕ := t.sizes.getD i 0

/-- Record of the one kernel launch issued by `attention_forward`:
    which specialization was selected and the grid it was launched on.
    `gridX` is `num_m_blocks`, `gridY` is `qo_heads`, `gridZ` is `batch`;
    `seqKv` and `hr` are the scalar globals `g.N` and `g.hr`. -/
structure LaunchedKernel where
  headDim : ℕ
  isCausal : Bool
  consumerWarpgroups : ℕ
  producerWarpgroups : ℕ
  gridX : ℕ
  gridY : ℕ
  gridZ : ℕ
  seqKv : ℕ
  hr : ℕ
deriving DecidableEq, Repr

/-- What `attention_forward` hands back on the success path: the shape of
    the tensor `o` it allocated with `torch::empty` (so: uninitialized
    storage), plus which kernel specialization, if any, was launched into
    it. `launched = none` means the function returned `o` without any
    kernel ever writing to it. -/
structure ForwardResult where
  outSizes : List ℕ
  launched : Option LaunchedKernel
deriving DecidableEq, Repr

/-- Model of the host launcher `attention_forward` (attention.py lines
    355-647). Every TORCH_CHECK appears as a guard in source order
    (tautological re-checks such as `q.size(0) == batch` with
    `batch = q.size(0)` are omitted); the scale-tensor checks run only in
    the quantized build (`is_fp8`). After validation the function
    allocates `o` with `torch::empty` and runs three independent
    `if (head_dim == ...)` blocks; no other head dimension launches
    anything, and the function still returns the (uninitialized) `o`. -/
def attention_forward (is_fp8 : Bool) (q k v scale_q scale_k : TensorMeta)
    (causal : Bool) : Except String ForwardResult :=
  if ¬ q.isCuda then .error "q must be a CUDA tensor"
  else if ¬ k.isCuda then .error "k must be a CUDA tensor"
  else if ¬ v.isCuda then .error "v must be a CUDA tensor"
  else if is_fp8 ∧ ¬ scale_q.isCuda then .error "scale_q must be a CUDA tensor"
  else if is_fp8 ∧ ¬ scale_k.isCuda then .error "scale_k must be a CUDA tensor"
  else if ¬ (q.device = k.device) then .error "Q and K tensors must be on the same device"
  else if ¬ (q.device = v.device) then .error "Q and V tensors must be on the same device"
  else if ¬ (q.dim = 4) then .error "Q tensor must have 4 dimensions"
  else if ¬ (k.dim = 4) then .error "K tensor must have 4 dimensions"
  else if ¬ (v.dim = 4) then .error "V tensor must have 4 dimensions"
  else
    let batch := q.size 0
    let seq_len_q := q.size 2
    let seq_len_kv := k.size 2
    let head_dim := q.size 3
    let qo_heads := q.size 1
    let kv_heads := k.size 1
    if ¬ (k.size 0 = batch) then .error "K batch dimension - idx 0 - must match for all inputs"
    else if ¬ (v.size 0 = batch) then .error "V batch dimension - idx 0 - must match for all inputs"
    else if ¬ (v.size 2 = seq_len_kv) then .error "V sequence length dimension - idx 2 - must match for all inputs"
    else if ¬ (k.size 3 = head_dim) then .error "K head dimension - idx 3 - must match for all non-vector inputs"
    else if ¬ (v.size 3 = head_dim) then .error "V head dimension - idx 3 - must match for all non-vector inputs"
    else if ¬ (kv_heads ≤ qo_heads) then .error "QO heads must be greater than or equal to KV heads"
    else if ¬ (qo_heads % kv_heads = 0) then .error "QO heads must be divisible by KV heads"
    else if ¬ (v.size 1 = kv_heads) then .error "KV head dimension - idx 1 - must match for all inputs"
    else if is_fp8 ∧ ¬ (scale_q.dtype = .float32) then .error "Q scale tensor must be of type float32"
    else if is_fp8 ∧ ¬ (scale_k.dtype = .float32) then .error "K scale tensor must be of type float32"
    else if is_fp8 ∧ ¬ (scale_q.dim = 2) then .error "Q scale tensor must have 2 dimensions"
    else if is_fp8 ∧ ¬ (scale_k.dim = 2) then .error "K scale tensor must have 2 dimensions"
    else if is_fp8 ∧ ¬ (scale_q.size 0 = batch) then .error "Q scale batch dimension - idx 0 - must match for all inputs"
    else if is_fp8 ∧ ¬ (scale_k.size 0 = batch) then .error "K scale batch dimension - idx 0 - must match for all inputs"
    else if is_fp8 ∧ ¬ (scale_q.size 1 = qo_heads) then .error "Q scale head dimension - idx 1 - must match for all inputs"
    else if is_fp8 ∧ ¬ (scale_k.size 1 = kv_heads) then .error "K scale head dimension - idx 1 - must match for all inputs"
    else
      let hr := qo_heads / kv_heads
      let launched : Option LaunchedKernel :=
        if head_dim = 64 then
          some ⟨64, causal, 3, 1, (seq_len_q + 3 * 64 - 1) / (3 * 64), qo_heads, batch, seq_len_kv, hr⟩
        else if head_dim = 128 then
          some ⟨128, causal, 3, 1, (seq_len_q + 3 * 64 - 1) / (3 * 64), qo_heads, batch, seq_len_kv, hr⟩
        else if head_dim = 256 then
          some ⟨256, causal, 2, 1, (seq_len_q + 2 * 64 - 1) / (2 * 64), qo_heads, batch, seq_len_kv, hr⟩
        else none
      .ok ⟨[batch, qo_heads, seq_len_q, head_dim], launched⟩

/-- Compile-time tile geometry, one record per template specialization of
    `fwd_attend_ker_tile_dims<D>` (attention.py lines 49-67). -/
structure TileDims where
  tile_width : ℕ
  qo_height : ℕ
  kv_height : ℕ
  stages : ℕ
deriving DecidableEq, Repr

/-- The three specializations of `fwd_attend_ker_tile_dims<D>`; the C++
    template has no body for any other `D`, modelled here as `none`. -/
def fwd_attend_ker_tile_dims : ℕ → Option TileDims
  | 64 => some ⟨64, 4 * 16, 8 * 16, 2⟩
  | 128 => some ⟨128, 4 * 16, 8 * 16, 2⟩
  | 256 => some ⟨256, 4 * 16, 4 * 16, 2⟩
  | _ => none

/-- Flat element offset at which `fwd_attend_ker` reads both
    `g.scale_q` and `g.scale_k`: the source line is
    `g.scale_k[blockIdx.z*gridDim.y + blockIdx.y]` (attention.py lines
    204-205), with `b = blockIdx.z`, `h = blockIdx.y`, and
    `gridDimY = gridDim.y = qo_heads` from the launch
    `dim3 grid(num_m_blocks, qo_heads, batch)`. -/
def fwd_attend_ker_scale_offset (b h gridDimY : ℕ) : ℕ := b * gridDimY + h

/-- Modelled from the spec: the flat offset of element `(b, h / hr)` in a
    contiguous rank-2 tensor of shape `(batch, kv_heads)`, which is where
    the per-(batch, key head) dequantization scale for query head `h`
    lives according to the claim and to the host-side validation
    `scale_k.size(1) == kv_heads`. -/
def scale_k_claim_offset (b h kv_heads hr : ℕ) : ℕ := b * kv_heads + h / hr

/-! Kernel model. `fwd_attend_ker` is modelled per query row and per
    output feature column: for a fixed global query row `qi` and a fixed
    column of `V`/`O`, the consumer warpgroup owning `qi` maintains one
    scalar running maximum, one scalar running normalizer (`norm_vec`)
    and one scalar output accumulator (`o_reg` at that column), updated
    once per key/value tile of the pipelined loop. Scores already carry
    the positive base-2 scaling factor (`1.44269504089f * ...`, times the
    dequantization scales in the fp8 build): the fp8 build multiplies the
    raw scores by it before masking and row_max, while the 16-bit build
    keeps `max_vec` unscaled and multiplies both the scores and the
    maxima by the factor before every exponentiation, which yields
    literally the same correction factors and weights since masking is a
    pure index predicate and `max` commutes with scaling by a positive
    constant. A score of `none` is a masked entry, i.e. minus infinity. -/

/-- Streaming-softmax state per query row and output column:
    `m` is the running row maximum (`max_vec`, `none` standing for the
    `neg_infty` initializer), `l` the running normalizer (`norm_vec`),
    `o` the output accumulator (`o_reg`). -/
structure OSState where
  m : Option ℚ
  l : ℚ
  o : ℚ
deriving DecidableEq, Repr

/-- Maximum on scores extended with minus infinity (`none`); this is the
    reduction performed by `row_max`. -/
def wmax : Option ℚ → Option ℚ → Option ℚ
  | none, y => y
  | some a, none => some a
  | some a, some b => some (max a b)

/-- `exp2` of the difference of two extended scores, as produced by the
    kernel pattern `sub` / `sub_row` followed by `exp2`: it is `0` when
    exactly one side is minus infinity (`exp2(-inf) = 0` in the float
    kernel). Both sides `none` would be `exp2(-inf - -inf) = NaN` in
    floats; that state is unreachable for the kernel instantiations used
    below (the first tile of every row always keeps at least key 0
    unmasked), and the model returns `0` there. -/
def expDiff (e2 : ℚ → ℚ) : Option ℚ → Option ℚ → ℚ
  | some a, some b => e2 (a - b)
  | _, _ => 0

/-- Row sum of the exponentiated tile (`row_sum(norm_vec, att_block, ...)`
    contribution): sum of `exp2(score - m)` over the entries `es` of one
    key tile, each entry a (masked score, value-column) pair. -/
def normOf (e2 : ℚ → ℚ) (es : List (Option ℚ × ℚ)) (m : Option ℚ) : ℚ :=
  (es.map fun p => expDiff e2 p.1 m).sum

/-- Contribution of one key tile to the output accumulator
    (`mma_AB(o_reg, att_block_mma, v_smem[...])` at one column): sum of
    `exp2(score - m) * v` over the tile entries. -/
def accOf (e2 : ℚ → ℚ) (es : List (Option ℚ × ℚ)) (m : Option ℚ) : ℚ :=
  (es.map fun p => expDiff e2 p.1 m * p.2).sum

/-- One iteration of the consumer loop of `fwd_attend_ker` (attention.py
    lines 228-322) on the streaming state, fed with one key/value tile
    `es` of already-masked, already-scaled scores paired with the value
    column. In source order: `row_max` folds the tile into the running
    maximum; the correction factor `exp2(max_vec_last_scaled -
    max_vec_scaled)` multiplies both `norm_vec` and `o_reg`; `row_sum`
    adds the new exponentials to `norm_vec`; the A·V matrix multiply
    accumulates them, weighted by `V`, into `o_reg`. -/
def consumeTile (e2 : ℚ → ℚ) (st : OSState) (es : List (Option ℚ × ℚ)) : OSState :=
  ⟨(es.map Prod.fst).foldl wmax st.m,
    expDiff e2 st.m ((es.map Prod.fst).foldl wmax st.m) * st.l
      + normOf e2 es ((es.map Prod.fst).foldl wmax st.m),
    expDiff e2 st.m ((es.map Prod.fst).foldl wmax st.m) * st.o
      + accOf e2 es ((es.map Prod.fst).foldl wmax st.m)⟩

/-- The `seq_idx` of the grid cell owning global query row `qi`:
    `blockIdx.x * CONSUMER_WARPGROUPS` where each grid cell covers
    `CONSUMER_WARPGROUPS * qo_height` query rows. -/
def seqIdxOf (CWG qoH qi : ℕ) : ℕ := qi / (CWG * qoH) * CWG

/-- The consumer-side loop bound `kv_iters` (attention.py lines 219-224):
    for causal mode `((seq_idx * qo_height) - 1 + CWG * qo_height) /
    kv_height`, computed from the last query row of the whole grid cell;
    for non-causal mode `kv_blocks - 1` with
    `kv_blocks = (N + kv_height - 1) / kv_height`. Computed in `ℤ`
    because the C expression is a signed int (`kv_blocks - 1 = -1` when
    `N = 0`, making the loop run zero times). -/
def consumer_kv_iters (is_causal : Bool) (qoH kvH CWG seqIdx N : ℕ) : ℤ :=
  match is_causal with
  | true => ((seqIdx * qoH : ℤ) - 1 + CWG * qoH) / kvH
  | false => ((N : ℤ) + kvH - 1) / kvH - 1

/-- Number of key/value tiles the consumer loop
    `for (kv_idx = 0; kv_idx <= kv_iters; kv_idx++)` iterates over. -/
def numKvTiles (is_causal : Bool) (qoH kvH CWG seqIdx N : ℕ) : ℕ :=
  (consumer_kv_iters is_causal qoH kvH CWG seqIdx N + 1).toNat

/-- The masking predicate of `fwd_attend_ker` (attention.py lines
    252-272) for global query row `qi` and global key position `k`, as an
    index predicate (the kernel overwrites the score regardless of its
    value). Causal: on the tiles `kv_idx == kv_iters-1 || kv_idx ==
    kv_iters` only, the 16-row key subtile `k/16` is fully masked when it
    lies beyond the query subtile `q_blk = qi/16`, and the diagonal
    subtile `k/16 == q_blk` gets `make_causal`, which masks the strict
    upper triangle `k % 16 > qi % 16`. Non-causal: on the tile `kv_idx ==
    kv_iters` only and only when `N` is not a multiple of the tile
    height, `right_fill` masks the columns `k % kv_height ≥ N %
    kv_height`. -/
def fwd_attend_ker_mask (is_causal : Bool) (qoH kvH CWG seqIdx N qi k : ℕ) : Bool :=
  let kvIters := consumer_kv_iters is_causal qoH kvH CWG seqIdx N
  match is_causal with
  | true =>
    decide ((k / kvH : ℤ) = kvIters - 1 ∨ (k / kvH : ℤ) = kvIters) &&
    decide (qi / 16 < k / 16 ∨ (k / 16 = qi / 16 ∧ qi % 16 < k % 16))
  | false =>
    decide ((k / kvH : ℤ) = kvIters) && decide (¬ N % kvH = 0) &&
    decide (N % kvH ≤ k % kvH)

/-- One entry of the post-mask score tile together with the matching
    value-column element: the score `σ k` survives exactly when the mask
    predicate does not fire. -/
def fwd_attend_ker_entry (is_causal : Bool) (qoH kvH CWG seqIdx N qi : ℕ)
    (σ v : ℕ → ℚ) (k : ℕ) : Option ℚ × ℚ :=
  (if fwd_attend_ker_mask is_causal qoH kvH CWG seqIdx N qi k then none else some (σ k), v k)

/-- The sequence of key/value tiles consumed for query row `qi`: tile
    `kv_idx` holds key positions `kv_idx * kv_height + j` for
    `j < kv_height`. -/
def fwd_attend_ker_row_tiles (is_causal : Bool) (qoH kvH CWG N qi : ℕ)
    (σ v : ℕ → ℚ) : List (List (Option ℚ × ℚ)) :=
  let seqIdx := seqIdxOf CWG qoH qi
  (List.range (numKvTiles is_causal qoH kvH CWG seqIdx N)).map fun t =>
    (List.range kvH).map fun j =>
      fwd_attend_ker_entry is_causal qoH kvH CWG seqIdx N qi σ v (t * kvH + j)

/-- Streaming state of the consumer after its whole `kv_idx` loop, for
    query row `qi`, starting from `neg_infty(max_vec)`, `zero(norm_vec)`,
    `zero(o_reg)`. -/
def fwd_attend_ker_row_state (e2 : ℚ → ℚ) (is_causal : Bool)
    (qoH kvH CWG N qi : ℕ) (σ v : ℕ → ℚ) : OSState :=
  (fwd_attend_ker_row_tiles is_causal qoH kvH CWG N qi σ v).foldl
    (consumeTile e2) ⟨none, 0, 0⟩

/-- The output element the kernel stores for query row `qi` at one
    column: `div_row(o_reg, o_reg, norm_vec)` then the async store. -/
def fwd_attend_ker_row_out (e2 : ℚ → ℚ) (is_causal : Bool)
    (qoH kvH CWG N qi : ℕ) (σ v : ℕ → ℚ) : ℚ :=
  (fwd_attend_ker_row_state e2 is_causal qoH kvH CWG N qi σ v).o /
  (fwd_attend_ker_row_state e2 is_causal qoH kvH CWG N qi σ v).l

/-- The producer-side loop bound `kv_iters` (attention.py lines 164-169):
    causal mode recomputes the consumer bound and subtracts one unless it
    is zero; non-causal mode uses `kv_blocks - 2` (signed: `-1` already
    stops the steady-state loop). -/
def producer_kv_iters (is_causal : Bool) (qoH kvH CWG seqIdx N : ℕ) : ℤ :=
  match is_causal with
  | true =>
    if ((seqIdx * qoH : ℤ) - 1 + CWG * qoH) / kvH = 0 then 0
    else ((seqIdx * qoH : ℤ) - 1 + CWG * qoH) / kvH - 1
  | false => ((N : ℤ) + kvH - 1) / kvH - 2

/-- Set of key/value tile indices the producer warpgroup loads for one
    grid cell: the entry prefetch issues tiles `0 .. stages-2` (that is,
    tile 0, since `stages = 2`; attention.py lines 148-154), and the
    steady-state loop `for (kv_idx = pipe_idx-1; kv_idx <= kv_iters;
    kv_idx++)` loads tile `kv_idx + 1` with `pipe_idx - 1 = 0`
    (attention.py lines 171-192). -/
def producer_loads_tile (is_causal : Bool) (qoH kvH CWG seqIdx N : ℕ) (t : ℕ) : Prop :=
  t = 0 ∨ (1 ≤ t ∧ (t : ℤ) ≤ producer_kv_iters is_causal qoH kvH CWG seqIdx N + 1)

instance (is_causal : Bool) (qoH kvH CWG seqIdx N t : ℕ) :
    Decidable (producer_loads_tile is_causal qoH kvH CWG seqIdx N t) := by
  unfold producer_loads_tile; infer_instance

/-- The compile-time score factor of the 16-bit kernel: `log2(e)/sqrt(D)`
    as the float literals of the source (`1.44269504089f * 0.125f` for
    `D = 64`, `* 0.08838834764f` for `D = 128`, `* 0.0625f` otherwise),
    read here as exact rationals. -/
def attn_scale (D : ℕ) : ℚ :=
  if D = 64 then 1.44269504089 * 0.125
  else if D = 128 then 1.44269504089 * 0.08838834764
  else 1.44269504089 * 0.0625

/-- Dot product over the feature dimension, the per-element content of
    `mm_ABt(att_block, q_o_smem[...].q, k_smem[...])`. -/
def dotProd (D : ℕ) (a b : ℕ → ℚ) : ℚ := ((List.range D).map fun d => a d * b d).sum

/-- The (tile geometry, consumer warpgroup count) triples actually
    instantiated: `fwd_attend_ker_tile_dims<64|128|256>` together with
    the `CONSUMER_WARPGROUPS` constant of the matching launch block of
    `attention_forward` (3, 3, 2). -/
def ValidGeometry (D qoH kvH CWG : ℕ) : Prop :=
  (D = 64 ∧ qoH = 64 ∧ kvH = 128 ∧ CWG = 3) ∨
  (D = 128 ∧ qoH = 64 ∧ kvH = 128 ∧ CWG = 3) ∨
  (D = 256 ∧ qoH = 64 ∧ kvH = 64 ∧ CWG = 2)

/-- Modelled from the spec: the attention weight a straightforward
    non-tiled full-matrix reference assigns to key `k` for query row
    `qi`, before normalization, expressed with the same base-2
    exponential and the same scaled scores `σ` as the kernel: zero beyond
    the diagonal in causal mode, `exp2(σ k)` otherwise. -/
def ref_attention_weight (e2 : ℚ → ℚ) (is_causal : Bool) (qi : ℕ)
    (σ : ℕ → ℚ) (k : ℕ) : ℚ :=
  if is_causal ∧ qi < k then 0 else e2 (σ k)

/-- Modelled from the spec: the full-matrix softmax-attention reference
    output for query row `qi` at one value column, over the true key
    sequence length `N`. -/
def ref_attention_row (e2 : ℚ → ℚ) (is_causal : Bool) (N qi : ℕ)
    (σ v : ℕ → ℚ) : ℚ :=
  ((List.range N).map fun k => ref_attention_weight e2 is_causal qi σ k * v k).sum /
  ((List.range N).map fun k => ref_attention_weight e2 is_causal qi σ k).sum

/-! Helper lemmas about the streaming state. -/

/-- Running maximum over the already-masked scores of a flat entry list,
    starting from the `neg_infty` initial value. -/
def scoresMax (L : List (Option ℚ × ℚ)) : Option ℚ :=
  (L.map Prod.fst).foldl wmax none

lemma wmax_eq_none {a b : Option ℚ} : wmax a b = none ↔ a = none ∧ b = none := by
  cases a <;> cases b <;> simp [wmax]

lemma foldl_wmax_eq_none {l : List (Option ℚ)} {acc : Option ℚ} :
    l.foldl wmax acc = none ↔ acc = none ∧ ∀ x ∈ l, x = none := by
  induction l generalizing acc with
  | nil => simp
  | cons x xs ih =>
    rw [List.foldl_cons, ih, wmax_eq_none]
    constructor
    · rintro ⟨⟨h1, h2⟩, h3⟩
      exact ⟨h1, by simpa [h2] using h3⟩
    · rintro ⟨h1, h2⟩
      exact ⟨⟨h1, h2 x (by simp)⟩, fun y hy => h2 y (by simp [hy])⟩

lemma foldl_wmax_some {l : List (Option ℚ)} (a : ℚ) :
    ∃ b, l.foldl wmax (some a) = some b := by
  cases h : l.foldl wmax (some a) with
  | none => exact absurd (foldl_wmax_eq_none.mp h).1 (by simp)
  | some b => exact ⟨b, rfl⟩

lemma shift_base {e2 : ℚ → ℚ} (he : ∀ a b, e2 (a + b) = e2 a * e2 b)
    (x a b : ℚ) : e2 (x - b) = e2 (x - a) * e2 (a - b) := by
  have harg : x - a + (a - b) = x - b := by ring
  rw [← he, harg]

lemma normOf_rebase {e2 : ℚ → ℚ} (he : ∀ a b, e2 (a + b) = e2 a * e2 b)
    (es : List (Option ℚ × ℚ)) (a b : ℚ) :
    normOf e2 es (some b) = e2 (a - b) * normOf e2 es (some a) := by
  unfold normOf
  rw [← List.sum_map_mul_left]
  congr 1
  apply List.map_congr_left
  intro p _
  cases hp : p.1 with
  | none => simp [expDiff]
  | some x => simp only [expDiff, shift_base he x a b]; ring

lemma accOf_rebase {e2 : ℚ → ℚ} (he : ∀ a b, e2 (a + b) = e2 a * e2 b)
    (es : List (Option ℚ × ℚ)) (a b : ℚ) :
    accOf e2 es (some b) = e2 (a - b) * accOf e2 es (some a) := by
  unfold accOf
  rw [← List.sum_map_mul_left]
  congr 1
  apply List.map_congr_left
  intro p _
  cases hp : p.1 with
  | none => simp [expDiff]
  | some x => simp only [expDiff, shift_base he x a b]; ring

lemma normOf_allnone {e2 : ℚ → ℚ} {es : List (Option ℚ × ℚ)}
    (h : ∀ p ∈ es, p.1 = none) (m : Option ℚ) : normOf e2 es m = 0 := by
  unfold normOf
  rw [List.sum_eq_zero]
  intro x hx
  obtain ⟨p, hp, rfl⟩ := List.mem_map.mp hx
  rw [h p hp]
  cases m <;> simp [expDiff]

lemma accOf_allnone {e2 : ℚ → ℚ} {es : List (Option ℚ × ℚ)}
    (h : ∀ p ∈ es, p.1 = none) (m : Option ℚ) : accOf e2 es m = 0 := by
  unfold accOf
  rw [List.sum_eq_zero]
  intro x hx
  obtain ⟨p, hp, rfl⟩ := List.mem_map.mp hx
  rw [h p hp]
  cases m <;> simp [expDiff]

/-- One step of the online-softmax loop preserves the closed form of the
    state: consuming one more tile after the entries `J` yields the
    maximum, normalizer and accumulator over `J ++ t`, the latter two
    re-expressed relative to the updated maximum by the correction factor
    `exp2(old max - new max)`. -/
lemma consumeTile_eq {e2 : ℚ → ℚ} (he : ∀ a b, e2 (a + b) = e2 a * e2 b)
    (J t : List (Option ℚ × ℚ)) :
    consumeTile e2 ⟨scoresMax J, normOf e2 J (scoresMax J), accOf e2 J (scoresMax J)⟩ t
      = ⟨scoresMax (J ++ t), normOf e2 (J ++ t) (scoresMax (J ++ t)),
          accOf e2 (J ++ t) (scoresMax (J ++ t))⟩ := by
  have hmax : scoresMax (J ++ t) = (t.map Prod.fst).foldl wmax (scoresMax J) := by
    unfold scoresMax
    rw [List.map_append, List.foldl_append]
  have hnormsplit : normOf e2 (J ++ t) (scoresMax (J ++ t))
      = normOf e2 J (scoresMax (J ++ t)) + normOf e2 t (scoresMax (J ++ t)) := by
    unfold normOf
    rw [List.map_append, List.sum_append]
  have haccsplit : accOf e2 (J ++ t) (scoresMax (J ++ t))
      = accOf e2 J (scoresMax (J ++ t)) + accOf e2 t (scoresMax (J ++ t)) := by
    unfold accOf
    rw [List.map_append, List.sum_append]
  unfold consumeTile
  simp only [OSState.mk.injEq]
  refine ⟨hmax.symm, ?_, ?_⟩
  · rw [hnormsplit, ← hmax]
    cases hMc : scoresMax J with
    | none =>
      have hall : ∀ p ∈ J, p.1 = none := fun p hp =>
        (foldl_wmax_eq_none.mp hMc).2 p.1 (List.mem_map.mpr ⟨p, hp, rfl⟩)
      rw [normOf_allnone hall, normOf_allnone hall]
      ring
    | some a =>
      obtain ⟨b, hb⟩ := foldl_wmax_some (l := t.map Prod.fst) a
      have hsb : scoresMax (J ++ t) = some b := by rw [hmax, hMc, hb]
      rw [hsb, normOf_rebase he J a b]
      simp [expDiff]
  · rw [haccsplit, ← hmax]
    cases hMc : scoresMax J with
    | none =>
      have hall : ∀ p ∈ J, p.1 = none := fun p hp =>
        (foldl_wmax_eq_none.mp hMc).2 p.1 (List.mem_map.mpr ⟨p, hp, rfl⟩)
      rw [accOf_allnone hall, accOf_allnone hall]
      ring
    | some a =>
      obtain ⟨b, hb⟩ := foldl_wmax_some (l := t.map Prod.fst) a
      have hsb : scoresMax (J ++ t) = some b := by rw [hmax, hMc, hb]
      rw [hsb, accOf_rebase he J a b]
      simp [expDiff]

/-- Core invariant of the online-softmax loop: after consuming any list
    of tiles from the initial state, the running maximum is the maximum
    over every entry seen so far, and the normalizer and accumulator hold
    the tile sums re-expressed relative to that current maximum. -/
lemma osfold_invariant {e2 : ℚ → ℚ} (he : ∀ a b, e2 (a + b) = e2 a * e2 b)
    (tiles : List (List (Option ℚ × ℚ))) :
    tiles.foldl (consumeTile e2) ⟨none, 0, 0⟩ =
      ⟨scoresMax tiles.flatten, normOf e2 tiles.flatten (scoresMax tiles.flatten),
        accOf e2 tiles.flatten (scoresMax tiles.flatten)⟩ := by
  induction tiles using List.reverseRecOn with
  | nil => simp [scoresMax, normOf, accOf]
  | append_singleton ts t ih =>
    rw [List.foldl_append, List.foldl_cons, List.foldl_nil, ih, consumeTile_eq he]
    have hflat : (ts ++ [t]).flatten = ts.flatten ++ t := by simp
    rw [hflat]

lemma join_range_map {α : Type} (T H : ℕ) (f : ℕ → α) :
    ((List.range T).map fun t => (List.range H).map fun j => f (t * H + j)).flatten
      = (List.range (T * H)).map f := by
  induction T with
  | zero => simp
  | succ T ih =>
    rw [List.range_succ, List.map_append, List.flatten_append, ih]
    have hTH : (T + 1) * H = T * H + H := by ring
    rw [hTH, List.range_add, List.map_append]
    simp only [List.map_singleton, List.flatten_singleton, List.map_map]
    congr 1

lemma sum_range_map (n : ℕ) (f : ℕ → ℚ) :
    ((List.range n).map f).sum = ∑ i ∈ Finset.range n, f i := by
  induction n with
  | zero => simp
  | succ n ih => simp [List.range_succ, Finset.sum_range_succ, ih]

/-- The flat entry list the consumer of query row `qi` processes. -/
def rowEntries (is_causal : Bool) (qoH kvH CWG N qi : ℕ) (σ v : ℕ → ℚ) :
    List (Option ℚ × ℚ) :=
  (List.range (numKvTiles is_causal qoH kvH CWG (seqIdxOf CWG qoH qi) N * kvH)).map
    (fwd_attend_ker_entry is_causal qoH kvH CWG (seqIdxOf CWG qoH qi) N qi σ v)

lemma row_tiles_join (is_causal : Bool) (qoH kvH CWG N qi : ℕ) (σ v : ℕ → ℚ) :
    (fwd_attend_ker_row_tiles is_causal qoH kvH CWG N qi σ v).flatten
      = rowEntries is_causal qoH kvH CWG N qi σ v := by
  unfold fwd_attend_ker_row_tiles rowEntries
  exact join_range_map _ _ _

/-- Closed form of the consumer state after its whole loop: maximum,
    normalizer and accumulator over the flat masked entry list. -/
lemma row_state_eq {e2 : ℚ → ℚ} (he : ∀ a b, e2 (a + b) = e2 a * e2 b)
    (is_causal : Bool) (qoH kvH CWG N qi : ℕ) (σ v : ℕ → ℚ) :
    fwd_attend_ker_row_state e2 is_causal qoH kvH CWG N qi σ v =
      ⟨scoresMax (rowEntries is_causal qoH kvH CWG N qi σ v),
        normOf e2 (rowEntries is_causal qoH kvH CWG N qi σ v)
          (scoresMax (rowEntries is_causal qoH kvH CWG N qi σ v)),
        accOf e2 (rowEntries is_causal qoH kvH CWG N qi σ v)
          (scoresMax (rowEntries is_causal qoH kvH CWG N qi σ v))⟩ := by
  unfold fwd_attend_ker_row_state
  rw [osfold_invariant he, row_tiles_join]

/-! Arithmetic facts about the iteration bounds and mask predicates, for
    the tile geometries actually instantiated. -/

/-- In causal mode, every key position the mask leaves unmasked is at or
    before the query position: keys past the diagonal inside the two
    masked tiles are removed by the subtile test, and all earlier tiles
    lie strictly before the first query row of the grid cell. -/
lemma causal_unmasked_le {D qoH kvH CWG : ℕ} (hcfg : ValidGeometry D qoH kvH CWG)
    (N qi k : ℕ)
    (hk : k < numKvTiles true qoH kvH CWG (seqIdxOf CWG qoH qi) N * kvH)
    (hm : fwd_attend_ker_mask true qoH kvH CWG (seqIdxOf CWG qoH qi) N qi k = false) :
    k ≤ qi := by
  rcases hcfg with ⟨hD, h1, h2, h3⟩ | ⟨hD, h1, h2, h3⟩ | ⟨hD, h1, h2, h3⟩ <;>
    subst h1 <;> subst h2 <;> subst h3 <;>
    · simp only [fwd_attend_ker_mask, consumer_kv_iters, numKvTiles, seqIdxOf,
        Bool.and_eq_false_iff, decide_eq_false_iff_not] at hm hk
      omega

/-- In causal mode, keys at or before the query position are never
    masked. -/
lemma causal_le_unmasked (qoH kvH CWG seqIdx N qi k : ℕ) (h : k ≤ qi) :
    fwd_attend_ker_mask true qoH kvH CWG seqIdx N qi k = false := by
  simp only [fwd_attend_ker_mask, Bool.and_eq_false_iff, decide_eq_false_iff_not]
  right
  omega

/-- In causal mode the consumer iterates far enough to cover the query
    position itself. -/
lemma causal_qi_lt_range {D qoH kvH CWG : ℕ} (hcfg : ValidGeometry D qoH kvH CWG)
    (N qi : ℕ) :
    qi < numKvTiles true qoH kvH CWG (seqIdxOf CWG qoH qi) N * kvH := by
  rcases hcfg with ⟨hD, h1, h2, h3⟩ | ⟨hD, h1, h2, h3⟩ | ⟨hD, h1, h2, h3⟩ <;>
    subst h1 <;> subst h2 <;> subst h3 <;>
    · simp only [numKvTiles, consumer_kv_iters, seqIdxOf]
      omega

/-- In non-causal mode the consumer iterates over every key tile of the
    sequence. -/
lemma noncausal_range_ge {D qoH kvH CWG : ℕ} (hcfg : ValidGeometry D qoH kvH CWG)
    (seqIdx N : ℕ) :
    N ≤ numKvTiles false qoH kvH CWG seqIdx N * kvH := by
  rcases hcfg with ⟨hD, h1, h2, h3⟩ | ⟨hD, h1, h2, h3⟩ | ⟨hD, h1, h2, h3⟩ <;>
    subst h1 <;> subst h2 <;> subst h3 <;>
    · simp only [numKvTiles, consumer_kv_iters]
      omega

/-- In non-causal mode, within the iterated range, the `right_fill` mask
    fires exactly on the key positions at or beyond the true sequence
    length `N`. -/
lemma noncausal_mask_iff {D qoH kvH CWG : ℕ} (hcfg : ValidGeometry D qoH kvH CWG)
    (seqIdx N qi k : ℕ)
    (hk : k < numKvTiles false qoH kvH CWG seqIdx N * kvH) :
    fwd_attend_ker_mask false qoH kvH CWG seqIdx N qi k = true ↔ N ≤ k := by
  rcases hcfg with ⟨hD, h1, h2, h3⟩ | ⟨hD, h1, h2, h3⟩ | ⟨hD, h1, h2, h3⟩ <;>
    subst h1 <;> subst h2 <;> subst h3 <;>
    · simp only [fwd_attend_ker_mask, consumer_kv_iters, numKvTiles,
        Bool.and_eq_true, decide_eq_true_eq] at hk ⊢
      omega

/-- When the sequence length is a multiple of the key tile height, the
    non-causal path applies no masking at all. -/
lemma noncausal_mask_divisible (qoH kvH CWG seqIdx N qi k : ℕ)
    (hdvd : N % kvH = 0) :
    fwd_attend_ker_mask false qoH kvH CWG seqIdx N qi k = false := by
  simp only [fwd_attend_ker_mask, Bool.and_eq_false_iff, decide_eq_false_iff_not]
  tauto

/-- In causal mode every tile the producer loads starts at or before the
    last query row of the grid cell, so it intersects the attendable
    range. -/
lemma producer_causal_bound {D qoH kvH CWG : ℕ} (hcfg : ValidGeometry D qoH kvH CWG)
    (seqIdx N t : ℕ) (h : producer_loads_tile true qoH kvH CWG seqIdx N t) :
    t * kvH ≤ seqIdx * qoH + CWG * qoH - 1 := by
  rcases hcfg with ⟨hD, h1, h2, h3⟩ | ⟨hD, h1, h2, h3⟩ | ⟨hD, h1, h2, h3⟩ <;>
    subst h1 <;> subst h2 <;> subst h3 <;>
    · rcases h with rfl | ⟨h1, h2⟩
      · omega
      · simp only [producer_kv_iters] at h2
        split at h2 <;> omega

/-- In non-causal mode the producer loads exactly the tiles
    `0 .. kv_blocks - 1`, covering the whole sequence. -/
lemma producer_noncausal_iff {D qoH kvH CWG : ℕ} (hcfg : ValidGeometry D qoH kvH CWG)
    (seqIdx N t : ℕ) (hN : 1 ≤ N) :
    producer_loads_tile false qoH kvH CWG seqIdx N t ↔ t < (N + kvH - 1) / kvH := by
  rcases hcfg with ⟨hD, h1, h2, h3⟩ | ⟨hD, h1, h2, h3⟩ | ⟨hD, h1, h2, h3⟩ <;>
    subst h1 <;> subst h2 <;> subst h3 <;>
    · simp only [producer_loads_tile, producer_kv_iters]
      omega

/-- Generic form of the kernel/reference equivalence: `cut` is the number
    of keys that actually participate (the causal and non-causal cases
    instantiate it), and the mask is assumed to keep exactly the keys
    below `cut` within the iterated range. -/
lemma row_out_eq_target {e2 : ℚ → ℚ} (he : ∀ a b, e2 (a + b) = e2 a * e2 b)
    (hp : ∀ x, 0 < e2 x) (is_causal : Bool) (qoH kvH CWG N qi : ℕ)
    (σ v : ℕ → ℚ) (cut : ℕ) (hcut1 : 1 ≤ cut)
    (hcutR : cut ≤ numKvTiles is_causal qoH kvH CWG (seqIdxOf CWG qoH qi) N * kvH)
    (hcutN : cut ≤ N)
    (hmask : ∀ k, k < numKvTiles is_causal qoH kvH CWG (seqIdxOf CWG qoH qi) N * kvH →
      (fwd_attend_ker_mask is_causal qoH kvH CWG (seqIdxOf CWG qoH qi) N qi k = false ↔ k < cut))
    (href : ∀ k, k < N →
      ref_attention_weight e2 is_causal qi σ k = if k < cut then e2 (σ k) else 0) :
    fwd_attend_ker_row_out e2 is_causal qoH kvH CWG N qi σ v
      = ref_attention_row e2 is_causal N qi σ v := by
  set R := numKvTiles is_causal qoH kvH CWG (seqIdxOf CWG qoH qi) N * kvH with hRdef
  set ent := fwd_attend_ker_entry is_causal qoH kvH CWG (seqIdxOf CWG qoH qi) N qi σ v
    with hent
  have hE : rowEntries is_causal qoH kvH CWG N qi σ v = (List.range R).map ent := rfl
  have hentfst : ∀ k, (ent k).1
      = (if fwd_attend_ker_mask is_causal qoH kvH CWG (seqIdxOf CWG qoH qi) N qi k
          then none else some (σ k)) := fun k => rfl
  have hentsnd : ∀ k, (ent k).2 = v k := fun k => rfl
  obtain ⟨M, hM⟩ : ∃ M, scoresMax ((List.range R).map ent) = some M := by
    cases hM0 : scoresMax ((List.range R).map ent) with
    | some M => exact ⟨M, rfl⟩
    | none =>
      exfalso
      have h0R : 0 < R := lt_of_lt_of_le hcut1 hcutR
      have h0mask : fwd_attend_ker_mask is_causal qoH kvH CWG (seqIdxOf CWG qoH qi) N qi 0
          = false := (hmask 0 h0R).mpr hcut1
      have hmem : (some (σ 0) : Option ℚ) ∈ ((List.range R).map ent).map Prod.fst := by
        refine List.mem_map.mpr ⟨ent 0, List.mem_map.mpr ⟨0, List.mem_range.mpr h0R, rfl⟩, ?_⟩
        rw [hentfst 0, h0mask]
        rfl
      have := (foldl_wmax_eq_none.mp hM0).2 _ hmem
      simp at this
  have hstate := row_state_eq he is_causal qoH kvH CWG N qi σ v
  rw [hE, hM] at hstate
  have hout : fwd_attend_ker_row_out e2 is_causal qoH kvH CWG N qi σ v
      = accOf e2 ((List.range R).map ent) (some M)
        / normOf e2 ((List.range R).map ent) (some M) := by
    unfold fwd_attend_ker_row_out
    rw [hstate]
  have hnorm : normOf e2 ((List.range R).map ent) (some M)
      = ∑ k ∈ Finset.range R, expDiff e2 (ent k).1 (some M) := by
    unfold normOf
    rw [List.map_map, sum_range_map]
    rfl
  have hacc : accOf e2 ((List.range R).map ent) (some M)
      = ∑ k ∈ Finset.range R, expDiff e2 (ent k).1 (some M) * (ent k).2 := by
    unfold accOf
    rw [List.map_map, sum_range_map]
    rfl
  have hexp : ∀ x : ℚ, e2 M * e2 (x - M) = e2 x := by
    intro x
    have harg : M + (x - M) = x := by ring
    rw [← he, harg]
  have hterm : ∀ k ∈ Finset.range R,
      e2 M * expDiff e2 (ent k).1 (some M) = (if k < cut then e2 (σ k) else 0) := by
    intro k hk
    rw [Finset.mem_range] at hk
    cases hmk : fwd_attend_ker_mask is_causal qoH kvH CWG (seqIdxOf CWG qoH qi) N qi k with
    | true =>
      have hnc : ¬ k < cut := fun hc => by
        have := (hmask k hk).mpr hc
        rw [hmk] at this
        exact absurd this (by simp)
      rw [hentfst k, hmk, if_pos rfl, if_neg hnc]
      simp [expDiff]
    | false =>
      have hkc : k < cut := (hmask k hk).mp hmk
      rw [hentfst k, hmk, if_neg (by simp), if_pos hkc]
      simp only [expDiff]
      exact hexp (σ k)
  have htermv : ∀ k ∈ Finset.range R,
      e2 M * (expDiff e2 (ent k).1 (some M) * (ent k).2)
        = (if k < cut then e2 (σ k) * v k else 0) := by
    intro k hk
    rw [← mul_assoc, hterm k hk, hentsnd k]
    by_cases hkc : k < cut
    · rw [if_pos hkc, if_pos hkc]
    · rw [if_neg hkc, if_neg hkc, zero_mul]
  have hcollapse : ∀ g : ℕ → ℚ,
      ∑ k ∈ Finset.range R, (if k < cut then g k else 0) = ∑ k ∈ Finset.range cut, g k := by
    intro g
    rw [← Finset.sum_subset (Finset.range_subset.mpr hcutR)
      (fun x _ hnx => if_neg (by simpa using hnx))]
    exact Finset.sum_congr rfl fun k hk => if_pos (Finset.mem_range.mp hk)
  have hcollapseN : ∀ g : ℕ → ℚ,
      ∑ k ∈ Finset.range N, (if k < cut then g k else 0) = ∑ k ∈ Finset.range cut, g k := by
    intro g
    rw [← Finset.sum_subset (Finset.range_subset.mpr hcutN)
      (fun x _ hnx => if_neg (by simpa using hnx))]
    exact Finset.sum_congr rfl fun k hk => if_pos (Finset.mem_range.mp hk)
  have hden : e2 M * normOf e2 ((List.range R).map ent) (some M)
      = ∑ k ∈ Finset.range cut, e2 (σ k) := by
    rw [hnorm, Finset.mul_sum]
    rw [Finset.sum_congr rfl hterm]
    exact hcollapse _
  have hnum : e2 M * accOf e2 ((List.range R).map ent) (some M)
      = ∑ k ∈ Finset.range cut, e2 (σ k) * v k := by
    rw [hacc, Finset.mul_sum]
    rw [Finset.sum_congr rfl htermv]
    exact hcollapse _
  have hrefden : ((List.range N).map fun k => ref_attention_weight e2 is_causal qi σ k).sum
      = ∑ k ∈ Finset.range cut, e2 (σ k) := by
    rw [sum_range_map]
    rw [Finset.sum_congr rfl fun k hk => href k (Finset.mem_range.mp hk)]
    exact hcollapseN _
  have hrefnum : ((List.range N).map fun k =>
        ref_attention_weight e2 is_causal qi σ k * v k).sum
      = ∑ k ∈ Finset.range cut, e2 (σ k) * v k := by
    rw [sum_range_map]
    have : ∀ k ∈ Finset.range N, ref_attention_weight e2 is_causal qi σ k * v k
        = (if k < cut then e2 (σ k) * v k else 0) := by
      intro k hk
      rw [href k (Finset.mem_range.mp hk)]
      by_cases hkc : k < cut
      · rw [if_pos hkc, if_pos hkc]
      · rw [if_neg hkc, if_neg hkc, zero_mul]
    rw [Finset.sum_congr rfl this]
    exact hcollapseN _
  have hMne : e2 M ≠ 0 := (hp M).ne'
  rw [hout]
  unfold ref_attention_row
  rw [hrefden, hrefnum]
  rw [← hden, ← hnum]
  exact (mul_div_mul_left _ _ hMne).symm

/-- The kernel row output equals the full-matrix reference, in both
    causal and non-causal mode, for every instantiated geometry. -/
lemma row_out_eq_ref {e2 : ℚ → ℚ} (he : ∀ a b, e2 (a + b) = e2 a * e2 b)
    (hp : ∀ x, 0 < e2 x) {D qoH kvH CWG : ℕ} (hcfg : ValidGeometry D qoH kvH CWG)
    (is_causal : Bool) (N qi : ℕ) (hqi : qi < N) (σ v : ℕ → ℚ) :
    fwd_attend_ker_row_out e2 is_causal qoH kvH CWG N qi σ v
      = ref_attention_row e2 is_causal N qi σ v := by
  cases is_causal with
  | false =>
    refine row_out_eq_target he hp false qoH kvH CWG N qi σ v N (by omega)
      (noncausal_range_ge hcfg _ _) le_rfl ?_ ?_
    · intro k hk
      have h := noncausal_mask_iff hcfg (seqIdxOf CWG qoH qi) N qi k hk
      rw [← Bool.not_eq_true, h]
      omega
    · intro k hk
      unfold ref_attention_weight
      rw [if_neg (by simp), if_pos hk]
  | true =>
    refine row_out_eq_target he hp true qoH kvH CWG N qi σ v (qi + 1) (by omega)
      (causal_qi_lt_range hcfg N qi) (by omega) ?_ ?_
    · intro k hk
      constructor
      · intro hf
        have := causal_unmasked_le hcfg N qi k hk hf
        omega
      · intro hlt
        exact causal_le_unmasked qoH kvH CWG _ N qi k (by omega)
    · intro k _
      unfold ref_attention_weight
      by_cases hkq : qi < k
      · rw [if_pos ⟨rfl, hkq⟩, if_neg (by omega)]
      · rw [if_neg (by simp [hkq]), if_pos (by omega)]

/-- Congruence for one consumer iteration: two tiles with identical
    masked scores, and identical values wherever the score is unmasked,
    produce identical state updates (masked entries contribute exactly
    zero weight, so their values are irrelevant). -/
lemma consumeTile_ext {e2 : ℚ → ℚ} (st : OSState) (H : ℕ)
    (f g : ℕ → Option ℚ × ℚ)
    (hfst : ∀ i, i < H → (f i).1 = (g i).1)
    (hsnd : ∀ i, i < H → (f i).1 ≠ none → (f i).2 = (g i).2) :
    consumeTile e2 st ((List.range H).map f)
      = consumeTile e2 st ((List.range H).map g) := by
  have hm : ((List.range H).map f).map Prod.fst
      = ((List.range H).map g).map Prod.fst := by
    rw [List.map_map, List.map_map]
    apply List.map_congr_left
    intro i hi
    exact hfst i (List.mem_range.mp hi)
  have hn : ∀ m, normOf e2 ((List.range H).map f) m
      = normOf e2 ((List.range H).map g) m := by
    intro m
    unfold normOf
    rw [List.map_map, List.map_map]
    apply congrArg
    apply List.map_congr_left
    intro i hi
    simp only [Function.comp_apply]
    rw [hfst i (List.mem_range.mp hi)]
  have ha : ∀ m, accOf e2 ((List.range H).map f) m
      = accOf e2 ((List.range H).map g) m := by
    intro m
    unfold accOf
    rw [List.map_map, List.map_map]
    apply congrArg
    apply List.map_congr_left
    intro i hi
    have hiH := List.mem_range.mp hi
    simp only [Function.comp_apply]
    cases hc : (f i).1 with
    | none =>
      have hgc : (g i).1 = none := by rw [← hfst i hiH, hc]
      rw [hgc]
      cases m <;> simp [expDiff]
    | some x =>
      have hgc : (g i).1 = some x := by rw [← hfst i hiH, hc]
      have hs : (f i).2 = (g i).2 := hsnd i hiH (by rw [hc]; simp)
      rw [hgc, hs]
  unfold consumeTile
  rw [hm, hn, ha]

/-- C4 (claim theorem): in causal mode, the output at query row `qi`
    depends only on the `Q` row and on key/value rows at positions at
    most `qi`: two runs whose inputs agree on `Q` and on `K`/`V` rows
    `0..qi` produce the same output element, for every instantiated
    geometry, with no assumption on the exponential or the suffix of
    `K`/`V`. -/
theorem C4_causal_noninterference {e2 : ℚ → ℚ}
    {D qoH kvH CWG : ℕ} (hcfg : ValidGeometry D qoH kvH CWG)
    (N qi : ℕ) (Q1 Q2 K1 K2 V1 V2 : ℕ → ℕ → ℚ) (j : ℕ)
    (hQ : ∀ p d, Q1 p d = Q2 p d)
    (hK : ∀ k, k ≤ qi → ∀ d, K1 k d = K2 k d)
    (hV : ∀ k, k ≤ qi → ∀ d, V1 k d = V2 k d) :
    fwd_attend_ker_row_out e2 true qoH kvH CWG N qi
        (fun k => attn_scale D * dotProd D (Q1 qi) (K1 k)) (fun k => V1 k j)
      = fwd_attend_ker_row_out e2 true qoH kvH CWG N qi
        (fun k => attn_scale D * dotProd D (Q2 qi) (K2 k)) (fun k => V2 k j) := by
  have hσ : ∀ k, k ≤ qi → attn_scale D * dotProd D (Q1 qi) (K1 k)
      = attn_scale D * dotProd D (Q2 qi) (K2 k) := by
    intro k hk
    have hdot : dotProd D (Q1 qi) (K1 k) = dotProd D (Q2 qi) (K2 k) := by
      unfold dotProd
      apply congrArg
      apply List.map_congr_left
      intro d _
      rw [hQ qi d, hK k hk d]
    rw [hdot]
  have hstate : fwd_attend_ker_row_state e2 true qoH kvH CWG N qi
        (fun k => attn_scale D * dotProd D (Q1 qi) (K1 k)) (fun k => V1 k j)
      = fwd_attend_ker_row_state e2 true qoH kvH CWG N qi
        (fun k => attn_scale D * dotProd D (Q2 qi) (K2 k)) (fun k => V2 k j) := by
    unfold fwd_attend_ker_row_state fwd_attend_ker_row_tiles
    rw [List.foldl_map, List.foldl_map]
    apply List.foldl_ext
    intro st t ht
    have htR := List.mem_range.mp ht
    apply consumeTile_ext
    · intro i hi
      have hkR : t * kvH + i < numKvTiles true qoH kvH CWG (seqIdxOf CWG qoH qi) N * kvH := by
        calc t * kvH + i < t * kvH + kvH := by omega
          _ = (t + 1) * kvH := by ring
          _ ≤ numKvTiles true qoH kvH CWG (seqIdxOf CWG qoH qi) N * kvH :=
            Nat.mul_le_mul_right kvH htR
      unfold fwd_attend_ker_entry
      by_cases hmk : fwd_attend_ker_mask true qoH kvH CWG (seqIdxOf CWG qoH qi) N qi
          (t * kvH + i) = true
      · simp [hmk]
      · have hmf : fwd_attend_ker_mask true qoH kvH CWG (seqIdxOf CWG qoH qi) N qi
            (t * kvH + i) = false := by
          cases hx : fwd_attend_ker_mask true qoH kvH CWG (seqIdxOf CWG qoH qi) N qi
              (t * kvH + i)
          · rfl
          · exact absurd hx hmk
        have hle := causal_unmasked_le hcfg N qi (t * kvH + i) hkR hmf
        simp only [hmf, Bool.false_eq_true, if_false]
        rw [hσ (t * kvH + i) hle]
    · intro i hi hne
      have hkR : t * kvH + i < numKvTiles true qoH kvH CWG (seqIdxOf CWG qoH qi) N * kvH := by
        calc t * kvH + i < t * kvH + kvH := by omega
          _ = (t + 1) * kvH := by ring
          _ ≤ numKvTiles true qoH kvH CWG (seqIdxOf CWG qoH qi) N * kvH :=
            Nat.mul_le_mul_right kvH htR
      have hmf : fwd_attend_ker_mask true qoH kvH CWG (seqIdxOf CWG qoH qi) N qi
          (t * kvH + i) = false := by
        by_contra hx
        have hmt : fwd_attend_ker_mask true qoH kvH CWG (seqIdxOf CWG qoH qi) N qi
            (t * kvH + i) = true := by
          cases hy : fwd_attend_ker_mask true qoH kvH CWG (seqIdxOf CWG qoH qi) N qi
              (t * kvH + i)
          · exact absurd hy hx
          · rfl
        exact hne (by simp [fwd_attend_ker_entry, hmt])
      have hle := causal_unmasked_le hcfg N qi (t * kvH + i) hkR hmf
      show V1 (t * kvH + i) j = V2 (t * kvH + i) j
      rw [hV (t * kvH + i) hle j]
  unfold fwd_attend_ker_row_out
  rw [hstate]

/-- Witness for C4 at a concrete instantiation: geometry for head
    dimension 64, two identical all-zero inputs. -/
theorem C4_causal_noninterference_witness :
    fwd_attend_ker_row_out (fun _ => (1 : ℚ)) true 64 128 3 1 0
        (fun k => attn_scale 64 * dotProd 64 ((fun _ _ => (0 : ℚ)) 0) ((fun _ _ => (0 : ℚ)) k))
        (fun k => (fun _ _ => (0 : ℚ)) k 0)
      = fwd_attend_ker_row_out (fun _ => (1 : ℚ)) true 64 128 3 1 0
        (fun k => attn_scale 64 * dotProd 64 ((fun _ _ => (0 : ℚ)) 0) ((fun _ _ => (0 : ℚ)) k))
        (fun k => (fun _ _ => (0 : ℚ)) k 0) :=
  C4_causal_noninterference (Or.inl ⟨rfl, rfl, rfl, rfl⟩) 1 0
    (fun _ _ => 0) (fun _ _ => 0) (fun _ _ => 0) (fun _ _ => 0) (fun _ _ => 0) (fun _ _ => 0) 0
    (fun _ _ => rfl) (fun _ _ _ => rfl) (fun _ _ _ => rfl)

/-- C1 (claim theorem): for every instantiated geometry, both causal
    settings, every query row inside the key sequence and every output
    column, the streaming kernel output equals the straightforward
    non-tiled full-matrix softmax-attention reference, computed with the
    same abstract base-2 exponential and the same compile-time score
    factor `attn_scale D` applied to the `Q·K^T` row dot products. The
    model is exact rational arithmetic, so the dtype tolerance of the
    claim sharpens to exact equality. The quantized variant follows the
    same streaming algebra with its dequantization factor folded into
    `σ`, but its `scale_k` read is misindexed for `hr > 1` (see the C2
    theorem), which is why this theorem covers the 16-bit path. -/
theorem C1_kernel_matches_reference {e2 : ℚ → ℚ}
    (he : ∀ a b, e2 (a + b) = e2 a * e2 b) (hp : ∀ x, 0 < e2 x)
    {D qoH kvH CWG : ℕ} (hcfg : ValidGeometry D qoH kvH CWG)
    (is_causal : Bool) (N qi : ℕ) (hqi : qi < N)
    (q : ℕ → ℚ) (K V : ℕ → ℕ → ℚ) (j : ℕ) :
    fwd_attend_ker_row_out e2 is_causal qoH kvH CWG N qi
        (fun k => attn_scale D * dotProd D q (K k)) (fun k => V k j)
      = ref_attention_row e2 is_causal N qi
        (fun k => attn_scale D * dotProd D q (K k)) (fun k => V k j) :=
  row_out_eq_ref he hp hcfg is_causal N qi hqi _ _

/-- Witness for C1: geometry for head dimension 64, causal mode, a
    sequence of length 4, query row 2, all-zero inputs, and the constant
    exponential `fun _ => 1`, which satisfies both hypotheses. -/
theorem C1_kernel_matches_reference_witness :
    fwd_attend_ker_row_out (fun _ => (1 : ℚ)) true 64 128 3 4 2
        (fun k => attn_scale 64 * dotProd 64 (fun _ => 0) ((fun _ _ => (0 : ℚ)) k))
        (fun k => (fun _ _ => (0 : ℚ)) k 0)
      = ref_attention_row (fun _ => (1 : ℚ)) true 4 2
        (fun k => attn_scale 64 * dotProd 64 (fun _ => 0) ((fun _ _ => (0 : ℚ)) k))
        (fun k => (fun _ _ => (0 : ℚ)) k 0) :=
  C1_kernel_matches_reference (fun _ _ => (one_mul 1).symm) (fun _ => one_pos)
    (Or.inl ⟨rfl, rfl, rfl, rfl⟩) true 4 2 (by omega)
    (fun _ => 0) (fun _ _ => 0) (fun _ _ => 0) 0

/-- C2 (claim theorem): counter-evidence against the claimed scale_k
    indexing. With batch = 1, qo_heads = 2, kv_heads = 1 (so hr = 2), the
    grid cell of query head h = 1 in batch b = 0 reads `g.scale_k` at
    flat offset `blockIdx.z * gridDim.y + blockIdx.y = 1`, but the
    host-validated scale_k tensor of shape (1, 1) has `batch * kv_heads
    = 1` element (only flat offset 0 is in bounds), and the element
    `(b, h / hr) = (0, 0)` named by the claim lives at flat offset 0. -/
theorem C2_scale_k_offset_mismatch :
    fwd_attend_ker_scale_offset 0 1 2 = 1 ∧
    ¬ fwd_attend_ker_scale_offset 0 1 2 < 1 * 1 ∧
    scale_k_claim_offset 0 1 1 2 = 0 ∧
    fwd_attend_ker_scale_offset 0 1 2 ≠ scale_k_claim_offset 0 1 1 2 := by
  decide

/-- C3 (claim theorem): evaluation of the host launcher at head
    dimension 32. Every validation guard passes, no kernel
    specialization is selected (`launched = none`), and the call returns
    the `torch::empty`-allocated output tensor as a success value instead
    of reporting a precondition failure. -/
theorem C3_head_dim_32_no_check_no_launch :
    attention_forward false ⟨[1, 1, 64, 32], 0, true, .float16⟩
        ⟨[1, 1, 64, 32], 0, true, .float16⟩ ⟨[1, 1, 64, 32], 0, true, .float16⟩
        ⟨[1, 1, 64, 32], 0, true, .float16⟩ ⟨[1, 1, 64, 32], 0, true, .float16⟩ false
      = .ok ⟨[1, 1, 64, 32], none⟩ := rfl

/-- C5 (claim theorem): the online-softmax rescale invariant. After any
    number `t` of consumer iterations on the tiles of a query row, the
    state reached from `(neg_infty, 0, 0)` satisfies: the running maximum
    is the maximum of all masked scores consumed so far, and the
    normalizer and output accumulator are exactly the sums of
    `exp2(score - max)` and `exp2(score - max) * v` over those entries,
    i.e. both are always expressed relative to the current running
    maximum — which is what the simultaneous multiplication of `norm_vec`
    and `o_reg` by the correction factor `exp2(old max - new max)` in
    `consumeTile` maintains. -/
theorem C5_rescale_invariant {e2 : ℚ → ℚ}
    (he : ∀ a b, e2 (a + b) = e2 a * e2 b)
    (is_causal : Bool) (qoH kvH CWG N qi t : ℕ) (σ v : ℕ → ℚ) :
    ((fwd_attend_ker_row_tiles is_causal qoH kvH CWG N qi σ v).take t).foldl
        (consumeTile e2) ⟨none, 0, 0⟩
      = ⟨scoresMax ((fwd_attend_ker_row_tiles is_causal qoH kvH CWG N qi σ v).take t).flatten,
          normOf e2 ((fwd_attend_ker_row_tiles is_causal qoH kvH CWG N qi σ v).take t).flatten
            (scoresMax ((fwd_attend_ker_row_tiles is_causal qoH kvH CWG N qi σ v).take t).flatten),
          accOf e2 ((fwd_attend_ker_row_tiles is_causal qoH kvH CWG N qi σ v).take t).flatten
            (scoresMax ((fwd_attend_ker_row_tiles is_causal qoH kvH CWG N qi σ v).take t).flatten)⟩ :=
  osfold_invariant he _

/-- Witness for C5: the constant exponential, causal mode, geometry for
    head dimension 64, one consumed tile. -/
theorem C5_rescale_invariant_witness :
    ((fwd_attend_ker_row_tiles true 64 128 3 1 0 (fun _ => 0) (fun _ => 0)).take 1).foldl
        (consumeTile (fun _ => (1 : ℚ))) ⟨none, 0, 0⟩
      = ⟨scoresMax ((fwd_attend_ker_row_tiles true 64 128 3 1 0 (fun _ => 0) (fun _ => 0)).take 1).flatten,
          normOf (fun _ => (1 : ℚ))
            ((fwd_attend_ker_row_tiles true 64 128 3 1 0 (fun _ => 0) (fun _ => 0)).take 1).flatten
            (scoresMax ((fwd_attend_ker_row_tiles true 64 128 3 1 0 (fun _ => 0) (fun _ => 0)).take 1).flatten),
          accOf (fun _ => (1 : ℚ))
            ((fwd_attend_ker_row_tiles true 64 128 3 1 0 (fun _ => 0) (fun _ => 0)).take 1).flatten
            (scoresMax ((fwd_attend_ker_row_tiles true 64 128 3 1 0 (fun _ => 0) (fun _ => 0)).take 1).flatten)⟩ :=
  C5_rescale_invariant (fun _ _ => (one_mul 1).symm) true 64 128 3 1 0 1 (fun _ => 0) (fun _ => 0)

/-- C6 (claim theorem): the producer load set. In causal mode every
    loaded tile starts at or before the last query row of the grid cell,
    so it intersects the attendable range and no tile wholly past the
    diagonal is ever loaded; in non-causal mode the loaded set is exactly
    the tiles `0 .. ceil(N / kv_height) - 1`, covering the whole sequence
    including a final partial tile. -/
theorem C6_producer_load_set {D qoH kvH CWG : ℕ} (hcfg : ValidGeometry D qoH kvH CWG)
    (seqIdx N : ℕ) (hN : 1 ≤ N) :
    (∀ t, producer_loads_tile true qoH kvH CWG seqIdx N t →
        t * kvH ≤ seqIdx * qoH + CWG * qoH - 1) ∧
    (∀ t, producer_loads_tile false qoH kvH CWG seqIdx N t ↔ t < (N + kvH - 1) / kvH) :=
  ⟨fun t h => producer_causal_bound hcfg seqIdx N t h,
    fun t => producer_noncausal_iff hcfg seqIdx N t hN⟩

/-- Witness for C6: geometry for head dimension 64, second grid cell,
    sequence length 200. -/
theorem C6_producer_load_set_witness :
    (∀ t, producer_loads_tile true 64 128 3 3 200 t → t * 128 ≤ 3 * 64 + 3 * 64 - 1) ∧
    (∀ t, producer_loads_tile false 64 128 3 3 200 t ↔ t < (200 + 128 - 1) / 128) :=
  C6_producer_load_set (Or.inl ⟨rfl, rfl, rfl, rfl⟩) 3 200 (by omega)

/-- C7 (claim theorem): non-causal ragged masking. Within the iterated
    range the mask fires exactly on key positions at or beyond the true
    sequence length `N` (these all lie in the final key tile, the only
    tile the mask condition `kv_idx == kv_iters` can select); when `N` is
    a multiple of the key tile height no non-causal masking happens at
    all; and every masked entry has score minus infinity, hence
    contributes weight `exp2` of minus infinity, that is zero, to the
    softmax. -/
theorem C7_noncausal_ragged_mask {D qoH kvH CWG : ℕ} (hcfg : ValidGeometry D qoH kvH CWG)
    (seqIdx N qi : ℕ) :
    (∀ k, k < numKvTiles false qoH kvH CWG seqIdx N * kvH →
        (fwd_attend_ker_mask false qoH kvH CWG seqIdx N qi k = true ↔ N ≤ k)) ∧
    (∀ k, fwd_attend_ker_mask false qoH kvH CWG seqIdx N qi k = true →
        (k / kvH : ℤ) = consumer_kv_iters false qoH kvH CWG seqIdx N) ∧
    (N % kvH = 0 → ∀ k, fwd_attend_ker_mask false qoH kvH CWG seqIdx N qi k = false) ∧
    (∀ (e2 : ℚ → ℚ) (σ v : ℕ → ℚ) (m : Option ℚ) (k : ℕ),
        fwd_attend_ker_mask false qoH kvH CWG seqIdx N qi k = true →
        expDiff e2 (fwd_attend_ker_entry false qoH kvH CWG seqIdx N qi σ v k).1 m = 0) := by
  refine ⟨fun k hk => noncausal_mask_iff hcfg seqIdx N qi k hk, ?_, ?_, ?_⟩
  · intro k hmk
    simp only [fwd_attend_ker_mask, Bool.and_eq_true, decide_eq_true_eq] at hmk
    exact hmk.1.1
  · exact fun hdvd k => noncausal_mask_divisible qoH kvH CWG seqIdx N qi k hdvd
  · intro e2 σ v m k hmk
    simp only [fwd_attend_ker_entry, hmk, if_true]
    cases m <;> rfl

/-- Witness for C7: geometry for head dimension 64, ragged sequence
    length 200. -/
theorem C7_noncausal_ragged_mask_witness :
    (∀ k, k < numKvTiles false 64 128 3 0 200 * 128 →
        (fwd_attend_ker_mask false 64 128 3 0 200 0 k = true ↔ 200 ≤ k)) ∧
    (∀ k, fwd_attend_ker_mask false 64 128 3 0 200 0 k = true →
        (k / 128 : ℤ) = consumer_kv_iters false 64 128 3 0 200) ∧
    (200 % 128 = 0 → ∀ k, fwd_attend_ker_mask false 64 128 3 0 200 0 k = false) ∧
    (∀ (e2 : ℚ → ℚ) (σ v : ℕ → ℚ) (m : Option ℚ) (k : ℕ),
        fwd_attend_ker_mask false 64 128 3 0 200 0 k = true →
        expDiff e2 (fwd_attend_ker_entry false 64 128 3 0 200 0 σ v k).1 m = 0) :=
  C7_noncausal_ragged_mask (Or.inl ⟨rfl, rfl, rfl, rfl⟩) 0 200 0

/-- C8 (claim theorem): the compile-time tile geometry table and the
    launcher warpgroup counts. The three `fwd_attend_ker_tile_dims`
    specializations fix feature-tile width = D, query-tile height = 64,
    key/value-tile height = 128 for D in 64 and 128 and 64 for D = 256,
    and 2 pipeline stages; and `attention_forward` launches with 3
    consumer warpgroups and 1 producer warpgroup for D in 64 and 128, and
    2 consumer warpgroups and 1 producer warpgroup for D = 256. -/
theorem C8_tile_geometry :
    fwd_attend_ker_tile_dims 64 = some ⟨64, 64, 128, 2⟩ ∧
    fwd_attend_ker_tile_dims 128 = some ⟨128, 64, 128, 2⟩ ∧
    fwd_attend_ker_tile_dims 256 = some ⟨256, 64, 64, 2⟩ ∧
    attention_forward false ⟨[1, 1, 64, 64], 0, true, .float16⟩
        ⟨[1, 1, 64, 64], 0, true, .float16⟩ ⟨[1, 1, 64, 64], 0, true, .float16⟩
        ⟨[1, 1, 64, 64], 0, true, .float16⟩ ⟨[1, 1, 64, 64], 0, true, .float16⟩ false
      = .ok ⟨[1, 1, 64, 64], some ⟨64, false, 3, 1, 1, 1, 1, 64, 1⟩⟩ ∧
    attention_forward false ⟨[1, 1, 64, 128], 0, true, .float16⟩
        ⟨[1, 1, 64, 128], 0, true, .float16⟩ ⟨[1, 1, 64, 128], 0, true, .float16⟩
        ⟨[1, 1, 64, 128], 0, true, .float16⟩ ⟨[1, 1, 64, 128], 0, true, .float16⟩ false
      = .ok ⟨[1, 1, 64, 128], some ⟨128, false, 3, 1, 1, 1, 1, 64, 1⟩⟩ ∧
    attention_forward false ⟨[1, 1, 64, 256], 0, true, .float16⟩
        ⟨[1, 1, 64, 256], 0, true, .float16⟩ ⟨[1, 1, 64, 256], 0, true, .float16⟩
        ⟨[1, 1, 64, 256], 0, true, .float16⟩ ⟨[1, 1, 64, 256], 0, true, .float16⟩ false
      = .ok ⟨[1, 1, 64, 256], some ⟨256, false, 2, 1, 1, 1, 1, 64, 1⟩⟩ :=
  ⟨rfl, rfl, rfl, rfl, rfl, rfl⟩

/-- C9 (claim theorem): the loader dispatch accepts exactly
    `torch.float16` and `torch.bfloat16`. For every other dtype it
    raises `ValueError` and `load_inline` is never invoked; for the two
    accepted dtypes `load_inline` is invoked and no `ValueError` is
    raised, whatever the environment and compile outcome. -/
theorem C9_loader_dtype_dispatch :
    ∀ (d : TorchDType) (is_fp8 : Bool) (env0 : Option String) (compileOk : Bool),
      (load_tk_attention_module d is_fp8 env0 compileOk).loadAttempted
          = decide (d = .float16 ∨ d = .bfloat16) ∧
      (load_tk_attention_module d is_fp8 env0 compileOk).outcome.isValueError
          = decide (¬ (d = .float16 ∨ d = .bfloat16)) := by
  intro d is_fp8 env0 compileOk
  cases d <;> cases compileOk <;> exact ⟨rfl, rfl⟩

/-- C10 (claim theorem): `load_tk_attention_module` leaves
    TORCH_CUDA_ARCH_LIST exactly as it found it, for every dtype (the
    ValueError path never touches it), every prior value including
    unset, and both compile outcomes (the restore sits in `finally`). -/
theorem C10_env_arch_restored :
    ∀ (d : TorchDType) (is_fp8 : Bool) (env0 : Option String) (compileOk : Bool),
      (load_tk_attention_module d is_fp8 env0 compileOk).envArch = env0 := by
  intro d is_fp8 env0 compileOk
  cases d <;> cases env0 <;> rfl

end QuantumAttn
